import Mathlib

/-!
Verification of the core algorithms of `ipyrad/analysis/pca.py` (class `PCA`):
a shallow embedding of the missing-data imputation policies, the kmeans-refined
imputation loop, the replicate decomposition driver `run`, and the replicate
sign-reconciliation / centroid aggregation performed by `draw`.

Conventions of the embedding:
* Genotype matrices (`self.snps`) are `List (List Nat)` of rows (samples ×
  markers); the integer code `9` is the missing-data sentinel.
* PCA coordinate matrices (`self.pcaxes[i]`) are stored column-major, as
  `List (List ℚ)` of component columns, because `draw` only ever reads and
  writes whole columns `datas[i][:, ax]`.
* Floating point arithmetic is idealised over `ℚ`.
* External numerical primitives (sklearn PCA / KMeans / LinearRegression /
  NearestCentroid, numpy's Mersenne-Twister generators) and repository code
  that lives outside this file's source (`SNPsExtracter`, `SNPsImputer`,
  `jsubsample_snps`) are modelled per the spec's interface descriptions:
  either as explicit deterministic function parameters, or as definitions
  marked `Modelled from the spec`.
-/

namespace IpyradPCA

/-- The sentinel integer code for a missing genotype call (`9` in the source). -/
def sentinel : Nat := 9

/-- Number of sentinel (missing) entries in one matrix row. -/
def rowMissing (row : List Nat) : Nat :=
  row.count sentinel

/-- Total number of sentinel (missing) entries of a genotype matrix;
`np.sum(snps == 9)`. -/
def countSentinels (snps : List (List Nat)) : Nat :=
  (snps.map rowMissing).sum

/-- The null imputation policy, `self.snps[self.snps == 9] = 0`
(source line 195): every sentinel entry becomes `0`, all other
entries are untouched.  It takes no population information. -/
def imputeNull (snps : List (List Nat)) : List (List Nat) :=
  snps.map (fun row => row.map (fun v => if v = sentinel then 0 else v))

/-- Entry lookup with numpy-ish defaulting used to state pointwise facts:
entry `(i, j)` of a row-major matrix, defaulting to `0` out of range. -/
def entryAt (snps : List (List Nat)) (i j : Nat) : Nat :=
  (snps.getD i []).getD j 0

/-- Spec-language definition (NOT from the source), for comparison with
`imputeNull`: "the matrix's most common reference-allele code", i.e. the
genotype code among the non-sentinel entries of the matrix attaining the
highest count (ties broken towards the smaller code). -/
def specMostCommonCode (snps : List (List Nat)) : Nat :=
  let vals := (snps.flatten).filter (fun v => v ≠ sentinel)
  let cands := [0, 1, 2]
  (cands.foldl (fun best c => if vals.count c > vals.count best then c else best) 0)

theorem getD_mem_of_lt (l : List Nat) (j : Nat) (d : Nat) (hj : j < l.length) :
    l.getD j d ∈ l := by
  rw [List.getD_eq_getElem l d hj]
  exact List.getElem_mem hj

/-- `9 ∉ l` when `l.count 9 = 0`, pointwise form. -/
theorem getD_ne_sentinel_of_count_zero (l : List Nat) (j : Nat)
    (h : l.count sentinel = 0) : l.getD j 0 ≠ sentinel := by
  have hnot : sentinel ∉ l := by
    intro hmem
    have := List.count_pos_iff.mpr hmem
    omega
  by_cases hj : j < l.length
  · intro heq
    exact hnot (heq ▸ getD_mem_of_lt l j 0 hj)
  · rw [List.getD_eq_default]
    · decide
    · omega

/-! ## Missing-data accounting (`__init__`, source lines 154-161)

`miss = np.sum(self.snps == 9, axis=1) / self.snps.shape[1]`, then each
sample's value is `round(miss[k], 2)`.  Python's `round` rounds half to
even; we idealise the float arithmetic over `ℚ`. -/

/-- Round a rational to the nearest integer, ties to the even integer
(Python's rounding mode). -/
def halfEvenRound (q : ℚ) : ℤ :=
  let f := ⌊q⌋
  let r := q - (f : ℚ)
  if r < 1/2 then f
  else if 1/2 < r then f + 1
  else if 2 ∣ f then f else f + 1

/-- `round(x, 2)`: round to two decimal places, ties to even. -/
def rnd2 (q : ℚ) : ℚ :=
  (halfEvenRound (q * 100) : ℚ) / 100

/-- Per-sample missingness vector of the loaded (pre-imputation) matrix:
row `k` gets the proportion of sentinel entries in row `k` (denominator
`shape[1]`, the column count of the rectangular array), rounded to two
decimals.  Exposed in the source as the mapping `name ↦ missing` taking
row order from `self.names`. -/
def missingOf (snps : List (List Nat)) : List ℚ :=
  snps.map (fun row => rnd2 ((rowMissing row : ℚ) / ((snps.headD []).length : ℚ)))

theorem halfEvenRound_intCast (z : ℤ) : halfEvenRound (z : ℚ) = z := by
  unfold halfEvenRound
  simp only [Int.floor_intCast]
  rw [if_pos]
  norm_num

theorem rnd2_zero : rnd2 0 = 0 := by
  unfold rnd2
  norm_num
  have := halfEvenRound_intCast 0
  norm_num at this
  simp [this]

theorem rnd2_one : rnd2 1 = 1 := by
  unfold rnd2
  norm_num
  have := halfEvenRound_intCast 100
  norm_num at this
  rw [this]
  norm_num

theorem getD_map_of_lt {α β : Type} (f : α → β) (l : List α) (k : Nat)
    (d : β) (d₀ : α) (hk : k < l.length) :
    (l.map f).getD k d = f (l.getD k d₀) := by
  induction l generalizing k with
  | nil => simp at hk
  | cons a t ih =>
    cases k with
    | zero => rfl
    | succ k =>
      simp only [List.map_cons, List.getD_cons_succ]
      exact ih k (by simpa using hk)

/-! ## Constructor-time imputation dispatch (`__init__` lines 163-165 and
`_impute_data`, lines 177-199)

`impute_method` is a dynamically typed Python value: `None` (default),
`False`, the string `"sample"`, or an `int` number of kmeans clusters.
Imputation runs iff `impute_method is not False` **and** the extracter
reported missing values (`self._mvals`, modelled from the spec's
`hasMissingFlag` as the count of sentinels).  Inside `_impute_data`,
`"sample"` delegates to the external `SNPsImputer`, an `int` runs
`_impute_kmeans`, and everything else (in particular `None`) runs the
null policy. -/

/-- The Python-typed `impute_method` argument. -/
inductive PyImpute where
  | pyNone : PyImpute
  | pyFalse : PyImpute
  | pySample : PyImpute
  | pyInt : Nat → PyImpute
deriving DecidableEq

/-- `_impute_data` (source lines 177-199).  The `"sample"` and kmeans
branches call collaborators outside this file; their results are passed
in as `sampleImputed` / `kmeansImputed`. -/
def imputeData (pym : PyImpute) (sampleImputed kmeansImputed : List (List Nat))
    (snps : List (List Nat)) : List (List Nat) :=
  match pym with
  | .pySample => sampleImputed
  | .pyInt _ => kmeansImputed
  | _ => imputeNull snps

/-- The guard `if (self.impute_method is not False) and self._mvals:
self._impute_data()` of `__init__` (source lines 163-165), returning the
final value of `self.snps`. -/
def initSnps (pym : PyImpute) (sampleImputed kmeansImputed : List (List Nat))
    (snps : List (List Nat)) : List (List Nat) :=
  if pym ≠ .pyFalse ∧ countSentinels snps ≠ 0 then
    imputeData pym sampleImputed kmeansImputed snps
  else snps

/-! ### Helper lemmas on the null policy -/

theorem rowMissing_imputed (row : List Nat) :
    rowMissing (row.map (fun v => if v = sentinel then 0 else v)) = 0 := by
  unfold rowMissing
  rw [List.count_eq_zero]
  intro hmem
  rw [List.mem_map] at hmem
  obtain ⟨v, _, heq⟩ := hmem
  by_cases hv : v = sentinel
  · rw [if_pos hv] at heq
    exact absurd heq (by decide)
  · rw [if_neg hv] at heq
    exact hv heq

theorem countSentinels_imputeNull (snps : List (List Nat)) :
    countSentinels (imputeNull snps) = 0 := by
  unfold countSentinels imputeNull
  rw [List.map_map]
  apply List.sum_eq_zero
  intro x hx
  rw [List.mem_map] at hx
  obtain ⟨row, _, hrow⟩ := hx
  rw [← hrow]
  exact rowMissing_imputed row

theorem entryAt_imputeNull (snps : List (List Nat)) (i j : Nat) :
    entryAt (imputeNull snps) i j =
      (if entryAt snps i j = sentinel then 0 else entryAt snps i j) := by
  unfold entryAt imputeNull
  by_cases hi : i < snps.length
  · rw [getD_map_of_lt _ snps i [] [] hi]
    set row := snps.getD i [] with hrowdef
    by_cases hj : j < row.length
    · rw [getD_map_of_lt _ row j 0 0 hj]
    · have h1 : (row.map (fun v => if v = sentinel then 0 else v)).getD j 0 = 0 :=
        List.getD_eq_default _ _ (by simpa using Nat.le_of_not_lt hj)
      have h2 : row.getD j 0 = 0 := List.getD_eq_default _ _ (Nat.le_of_not_lt hj)
      rw [h1, h2]
      decide
  · have hle : snps.length ≤ i := Nat.le_of_not_lt hi
    have h1 : (snps.map fun row =>
        row.map (fun v => if v = sentinel then 0 else v)).getD i [] = [] :=
      List.getD_eq_default _ _ (by simpa using hle)
    have h2 : snps.getD i [] = [] := List.getD_eq_default _ _ hle
    rw [h1, h2]
    simp [sentinel]

theorem entryAt_ne_sentinel_of_count_zero (snps : List (List Nat))
    (h : countSentinels snps = 0) (i j : Nat) : entryAt snps i j ≠ sentinel := by
  unfold entryAt
  by_cases hi : i < snps.length
  · apply getD_ne_sentinel_of_count_zero
    have hmem : snps.getD i [] ∈ snps := by
      rw [List.getD_eq_getElem snps [] hi]
      exact List.getElem_mem hi
    unfold countSentinels at h
    have : rowMissing (snps.getD i []) = 0 := by
      have := List.sum_eq_zero_iff.mp h
      exact this _ (List.mem_map_of_mem rowMissing hmem)
    exact this
  · have h2 : snps.getD i [] = [] :=
      List.getD_eq_default _ _ (Nat.le_of_not_lt hi)
    rw [h2, List.getD_nil]
    decide

/-! ### Claim theorems on imputation policies and missingness -/

/-- C6, counterexample.  The claim says the null policy writes "the
matrix's most common reference-allele code" into missing entries.  On the
matrix `[[2, 2, 9]]` the most common (non-sentinel) code is `2`, yet the
source's null policy (`self.snps[self.snps == 9] = 0`) writes `0`. -/
theorem imputeNull_not_most_common :
    specMostCommonCode [[2, 2, 9]] = 2 ∧
    imputeNull [[2, 2, 9]] = [[2, 2, 0]] ∧
    entryAt (imputeNull [[2, 2, 9]]) 0 2 ≠ specMostCommonCode [[2, 2, 9]] := by
  decide

/-- C6, amended: under the null imputation policy every sentinel entry of
the genotype matrix is replaced by the constant code `0` (with no
per-population differentiation — the policy takes no population input),
every non-sentinel entry is unchanged, and the resulting matrix contains
zero sentinel values. -/
theorem imputeNull_null_policy (snps : List (List Nat)) :
    countSentinels (imputeNull snps) = 0 ∧
    ∀ i j, entryAt (imputeNull snps) i j =
      (if entryAt snps i j = sentinel then 0 else entryAt snps i j) :=
  ⟨countSentinels_imputeNull snps, fun i j => entryAt_imputeNull snps i j⟩

/-- C7: the per-sample missingness mapping assigns to each sample the
proportion of sentinel entries in its row, rounded to two decimals; a
row with no sentinels gets `0.0` and an all-sentinel row gets `1.0`. -/
theorem missingness_correct (snps : List (List Nat)) (row : List Nat)
    (k n : Nat) (hk : k < snps.length) (hrow : snps.getD k [] = row)
    (hn : (snps.headD []).length = n) (hpos : 0 < n) :
    (missingOf snps).getD k 0 = rnd2 ((rowMissing row : ℚ) / (n : ℚ)) ∧
    (rowMissing row = 0 → (missingOf snps).getD k 0 = 0) ∧
    (rowMissing row = n → (missingOf snps).getD k 0 = 1) := by
  have hmain : (missingOf snps).getD k 0 =
      rnd2 ((rowMissing row : ℚ) / (n : ℚ)) := by
    unfold missingOf
    rw [getD_map_of_lt _ snps k 0 [] hk, hrow, hn]
  refine ⟨hmain, ?_, ?_⟩
  · intro h0
    rw [hmain, h0]
    norm_num [rnd2_zero]
  · intro hall
    rw [hmain, hall, div_self (by positivity : ((n : ℚ) ≠ 0))]
    exact rnd2_one

/-- Witness for `missingness_correct` on a concrete 2×2 matrix whose second
row is entirely missing. -/
theorem missingness_correct_witness :
    (1 < 2 ∧ 0 < 2) ∧ (missingOf [[0, 0], [9, 9]]).getD 1 0 = 1 := by
  refine ⟨⟨by decide, by decide⟩, ?_⟩
  have h := missingness_correct [[0, 0], [9, 9]] [9, 9] 1 2
    (by decide) rfl rfl (by decide)
  exact h.2.2 (by decide)

/-- C9: `impute_method=False` skips imputation entirely (the stored matrix
keeps its sentinels), while the default `impute_method=None` runs the null
policy, overwriting every sentinel with `0`; on a matrix containing a
sentinel the two opt-out spellings give different stored matrices. -/
theorem impute_false_vs_none (snps si ki : List (List Nat)) :
    initSnps .pyFalse si ki snps = snps ∧
    countSentinels (initSnps .pyNone si ki snps) = 0 ∧
    (∀ i j, entryAt (initSnps .pyNone si ki snps) i j =
      (if entryAt snps i j = sentinel then 0 else entryAt snps i j)) ∧
    initSnps .pyFalse [] [] [[9]] ≠ initSnps .pyNone [] [] [[9]] := by
  refine ⟨by simp [initSnps], ?_, ?_, by decide⟩
  · by_cases h : countSentinels snps = 0
    · rw [initSnps, if_neg (fun hc => hc.2 h)]
      exact h
    · rw [initSnps, if_pos ⟨by decide, h⟩]
      exact countSentinels_imputeNull snps
  · intro i j
    by_cases h : countSentinels snps = 0
    · rw [initSnps, if_neg (fun hc => hc.2 h)]
      rw [if_neg (entryAt_ne_sentinel_of_count_zero snps h i j)]
    · rw [initSnps, if_pos ⟨by decide, h⟩]
      exact entryAt_imputeNull snps i j

/-! ## Replicate sign reconciliation (`draw`, source lines 374-391)

For each non-reference replicate `i ≥ 1` and each displayed axis
`ax ∈ [ax0, ax1]`, the source fits `LinearRegression` of
`datas[i][:, ax]` (and of its negation) against `datas[0][:, ax]`,
and keeps whichever orientation has the larger fitted slope, writing
the negated column back into `datas[i]` in place when the flip wins.
Coordinate matrices are stored column-major here. -/

/-- A PCA coordinate matrix, stored as a list of component columns. -/
abbrev CoordMat := List (List ℚ)

/-- Column `ax` of a coordinate matrix (`datas[i][:, ax]`). -/
def getCol (m : CoordMat) (ax : Nat) : List ℚ := m.getD ax []

/-- Write column `ax` of a coordinate matrix (`datas[i][:, ax] = c`). -/
def setCol (m : CoordMat) (ax : Nat) (c : List ℚ) : CoordMat := m.set ax c

/-- `datas[i][:, ax] * -1`. -/
def negCol (c : List ℚ) : List ℚ := c.map (fun x => -x)

/-- Dot product of two columns (zipped; used by the OLS slope). -/
def dotL (xs ys : List ℚ) : ℚ := ((xs.zip ys).map (fun p => p.1 * p.2)).sum

/-- Modelled from the spec: the external "simple linear regression
(slope/intercept)" primitive (`sklearn.linear_model.LinearRegression`).
Fitted slope of response `ys` against predictor `xs` with an intercept:
`(n·Σxy − Σx·Σy) / (n·Σx² − (Σx)²)`; the degenerate denominator-zero case
yields `0` under Lean's division convention. -/
def slope (xs ys : List ℚ) : ℚ :=
  ((xs.length : ℚ) * dotL xs ys - xs.sum * ys.sum) /
    ((xs.length : ℚ) * dotL xs xs - xs.sum * xs.sum)

/-- The per-axis orientation test of `draw`: keep the sign-flipped column
iff the flipped fit's slope `c1` is strictly larger than the bare fit's
slope `c0` (source lines 383-391). -/
def alignAxis (orig c : List ℚ) : List ℚ :=
  if slope orig (negCol c) > slope orig c then negCol c else c

/-- The two-axis in-place update of one non-reference replicate
(the `for ax in [ax0, ax1]` body, with `ref` = replicate 0). -/
def flipAxes (ref : CoordMat) (ax0 ax1 : Nat) (d : CoordMat) : CoordMat :=
  setCol (setCol d ax0 (alignAxis (getCol ref ax0) (getCol d ax0))) ax1
    (alignAxis (getCol ref ax1)
      (getCol (setCol d ax0 (alignAxis (getCol ref ax0) (getCol d ax0))) ax1))

/-- The whole reconciliation pass of `draw` over the replicate result set
(`for i in range(1, len(datas))`): replicate 0 is untouched and is the
reference for every other replicate. -/
def reconcile (ax0 ax1 : Nat) : List CoordMat → List CoordMat
  | [] => []
  | d0 :: rest => d0 :: rest.map (flipAxes d0 ax0 ax1)

theorem negCol_negCol (c : List ℚ) : negCol (negCol c) = c := by
  unfold negCol
  rw [List.map_map]
  simp

theorem alignAxis_nil (o : List ℚ) : alignAxis o [] = [] := by
  unfold alignAxis
  split <;> rfl

/-- Applying the orientation test twice keeps the first outcome: the
second comparison is the first one with its strict inequality reversed. -/
theorem alignAxis_idem (o c : List ℚ) :
    alignAxis o (alignAxis o c) = alignAxis o c := by
  unfold alignAxis
  by_cases h : slope o (negCol c) > slope o c
  · rw [if_pos h, if_neg]
    rw [negCol_negCol]
    exact fun h2 => absurd h (lt_asymm h2)
  · rw [if_neg h, if_neg h]

theorem getD_set_self {α : Type} (l : List α) (i : Nat) (a d : α)
    (h : i < l.length) : (l.set i a).getD i d = a := by
  rw [List.getD_eq_getElem _ _ (by simpa using h), List.getElem_set_self]

theorem getD_set_ne {α : Type} (l : List α) (i j : Nat) (a d : α)
    (h : i ≠ j) : (l.set i a).getD j d = l.getD j d := by
  simp [List.getD_eq_getElem?_getD, List.getElem?_set_ne h]

theorem getCol_setCol_same (m : CoordMat) (ax : Nat) (c : List ℚ)
    (h : ax < m.length) : getCol (setCol m ax c) ax = c :=
  getD_set_self m ax c [] h

theorem getCol_setCol_ne (m : CoordMat) (i j : Nat) (c : List ℚ)
    (h : i ≠ j) : getCol (setCol m i c) j = getCol m j :=
  getD_set_ne m i j c [] h

/-- Reading back a column just aligned and written returns the aligned
column, whether or not the write was in bounds. -/
theorem getCol_setCol_align (o : List ℚ) (m : CoordMat) (ax : Nat) :
    getCol (setCol m ax (alignAxis o (getCol m ax))) ax =
      alignAxis o (getCol m ax) := by
  by_cases h : ax < m.length
  · exact getCol_setCol_same m ax _ h
  · unfold getCol setCol
    rw [List.set_eq_of_length_le (Nat.le_of_not_lt h)]
    have hnil : m.getD ax [] = [] := List.getD_eq_default _ _ (Nat.le_of_not_lt h)
    rw [hnil, alignAxis_nil]

theorem setCol_setCol (m : CoordMat) (ax : Nat) (a b : List ℚ) :
    setCol (setCol m ax a) ax b = setCol m ax b :=
  List.set_set a b m ax

theorem setCol_comm (m : CoordMat) (i j : Nat) (a b : List ℚ) (h : i ≠ j) :
    setCol (setCol m i a) j b = setCol (setCol m j b) i a :=
  List.set_comm a b m h

/-- `flipAxes` is a fixed point on its own output (same reference, same
two axes). -/
theorem flipAxes_idem (ref : CoordMat) (ax0 ax1 : Nat) (d : CoordMat) :
    flipAxes ref ax0 ax1 (flipAxes ref ax0 ax1 d) = flipAxes ref ax0 ax1 d := by
  by_cases hax : ax0 = ax1
  · subst hax
    unfold flipAxes
    simp only [getCol_setCol_align, setCol_setCol, alignAxis_idem]
  · unfold flipAxes
    set O0 := getCol ref ax0
    set O1 := getCol ref ax1
    set x0 := getCol d ax0 with hx0
    have hget1 : getCol (setCol d ax0 (alignAxis O0 x0)) ax1 = getCol d ax1 :=
      getCol_setCol_ne d ax0 ax1 _ hax
    rw [hget1]
    set x1 := getCol d ax1 with hx1
    set e := setCol (setCol d ax0 (alignAxis O0 x0)) ax1 (alignAxis O1 x1) with he
    have hgete0 : getCol e ax0 = alignAxis O0 x0 := by
      rw [he]
      rw [getCol_setCol_ne _ ax1 ax0 _ (Ne.symm hax)]
      exact getCol_setCol_align O0 d ax0
    rw [hgete0, alignAxis_idem]
    have he1 : setCol e ax0 (alignAxis O0 x0) = e := by
      rw [he, setCol_comm _ ax0 ax1 _ _ hax, setCol_setCol,
        ← setCol_comm _ ax0 ax1 _ _ hax]
    rw [he1]
    have hgete1 : getCol e ax1 = alignAxis O1 x1 := by
      rw [he, ← hget1]
      exact getCol_setCol_align O1 (setCol d ax0 (alignAxis O0 x0)) ax1
    rw [hgete1, alignAxis_idem]
    rw [he, setCol_setCol]

/-- C4: for every replicate count and every pair of displayed axes, the
sign-alignment step never modifies replicate 0: the loop runs
`for i in range(1, len(datas))` and only ever reads `datas[0]`. -/
theorem reconcile_fixes_replicate0 (ax0 ax1 : Nat) (datas : List CoordMat) :
    (reconcile ax0 ax1 datas).getD 0 [] = datas.getD 0 [] := by
  cases datas <;> rfl

/-- C5: the slope-comparison sign-reconciliation procedure is a fixed
point on its own output: a second application (same reference replicate,
same two displayed axes) changes no coordinate values. -/
theorem reconcile_idem (ax0 ax1 : Nat) (datas : List CoordMat) :
    reconcile ax0 ax1 (reconcile ax0 ax1 datas) = reconcile ax0 ax1 datas := by
  cases datas with
  | nil => rfl
  | cons d0 rest =>
    simp only [reconcile]
    congr 1
    rw [List.map_map]
    apply List.map_congr_left
    intro d _
    exact flipAxes_idem d0 ax0 ax1 d

/-! ## Centroid aggregation (`draw`, source lines 503-520)

With `nreplicates ≥ 2`, `draw` stacks the two displayed coordinates of
every replicate (`Xarr`), labels each point with its sample index
(`yarr = np.tile(np.arange(len(names)), nreplicates)`), and fits a
`NearestCentroid` classifier; the fitted `centroids_` are plotted. -/

/-- `np.concatenate([np.array([datas[i][:, ax0], datas[i][:, ax1]]).T
for i in range(nreplicates)])`. -/
def buildXarr (datas : List CoordMat) (ax0 ax1 : Nat) : List (ℚ × ℚ) :=
  (datas.map (fun m => (getCol m ax0).zip (getCol m ax1))).flatten

/-- `np.tile(np.arange(n), R)`: the synthetic class labels, one class per
sample index, repeated across replicates. -/
def buildYarr (n R : Nat) : List Nat :=
  (List.replicate R (List.range n)).flatten

/-- Training points carrying class label `c`. -/
def classPoints (pts : List (ℚ × ℚ)) (labels : List Nat) (c : Nat) :
    List (ℚ × ℚ) :=
  ((pts.zip labels).filter (fun p => p.2 == c)).map (fun p => p.1)

/-- Modelled from the spec: the external nearest-centroid classification
primitive (`sklearn.neighbors.NearestCentroid`, Euclidean metric): the
fitted centroid of class `c` is the coordinate-wise mean of the training
points labelled `c`. -/
def centroidOf (pts : List (ℚ × ℚ)) (labels : List Nat) (c : Nat) : ℚ × ℚ :=
  (((classPoints pts labels c).map Prod.fst).sum /
      ((classPoints pts labels c).length : ℚ),
   ((classPoints pts labels c).map Prod.snd).sum /
      ((classPoints pts labels c).length : ℚ))

/-! ## The `draw` skeleton (source lines 350-530, styling elided)

`draw` first averages the per-replicate explained-variance vectors, then
asserts `max(ax0, ax1) < self.pcaxes[0].shape[1]`, and only then runs
sign reconciliation (mutating `self.pcaxes` in place through the alias
`datas`), followed by scatter/centroid plotting. -/

/-- `np.array([i for i in self.variances.values()]).mean(axis=0)`. -/
def meanVariance (vs : List (List ℚ)) : List ℚ :=
  (List.range ((vs.headD []).length)).map
    (fun j => (vs.map (fun v => v.getD j 0)).sum / (vs.length : ℚ))

/-- `self.pcaxes[0].shape[1]`: the number of retained components
(column count of replicate 0, column-major). -/
def ncomponents (datas : List CoordMat) : Nat := (datas.headD []).length

/-- The `draw` call skeleton.  Arguments: the stored `self.pcaxes`
(`datas`), the stored `self.variances`, the two requested axes, and the
sample count `len(self.names)` (`n`).  Result: first component is the
outcome (`.error` = the failed assertion's message; `.ok` carries the
reconciled coordinates, the averaged variance, and — when at least two
replicates are stored — the fitted centroids), second component is the
value of `self.pcaxes` after the call (the reconciliation writes back in
place through the alias `datas = self.pcaxes`). -/
def drawModel (datas : List CoordMat) (variances : List (List ℚ))
    (ax0 ax1 n : Nat) :
    Except String (List CoordMat × List ℚ × Option (List (ℚ × ℚ))) ×
      List CoordMat :=
  let meanv := meanVariance variances
  if max ax0 ax1 < ncomponents datas then
    let nd := reconcile ax0 ax1 datas
    let cents :=
      if 2 ≤ datas.length then
        some ((List.range n).map
          (fun j => centroidOf (buildXarr nd ax0 ax1) (buildYarr n nd.length) j))
      else none
    (.ok (nd, meanv, cents), nd)
  else
    (.error (s!"data set only has {ncomponents datas} axes."), datas)

/-- C8: when a requested axis index reaches the number of retained
components, `draw` fails with the descriptive assertion message before
any reconciliation, centroid aggregation, or plotting: the stored
`self.pcaxes` is returned untouched and no `.ok` payload is produced. -/
theorem draw_fails_fast (datas : List CoordMat) (variances : List (List ℚ))
    (ax0 ax1 n : Nat) (h : ncomponents datas ≤ max ax0 ax1) :
    drawModel datas variances ax0 ax1 n =
      (.error (s!"data set only has {ncomponents datas} axes."), datas) := by
  unfold drawModel
  rw [if_neg (by omega)]

/-- Witness for `draw_fails_fast`: a single replicate with one retained
component, with axis 1 requested. -/
theorem draw_fails_fast_witness :
    ncomponents [[[1, 2]]] ≤ max 0 1 ∧
    drawModel [[[1, 2]]] [[1]] 0 1 1 =
      (.error "data set only has 1 axes.", [[[1, 2]]]) := by
  refine ⟨by decide, ?_⟩
  rw [draw_fails_fast [[[1, 2]]] [[1]] 0 1 1 (by decide)]
  rfl

/-! ### The synthetic-label bookkeeping behind the centroid fit -/

theorem filter_zip_range'_small {α : Type} (t : List α) (s j : Nat)
    (hj : j < s) :
    (t.zip (List.range' s t.length)).filter (fun p => p.2 == j) = [] := by
  induction t generalizing s with
  | nil => rfl
  | cons a t ih =>
    rw [List.length_cons, List.range'_succ, List.zip_cons_cons, List.filter_cons]
    have hne : ((a, s).2 == j) = false := by
      simp only [beq_eq_false_iff_ne]
      omega
    rw [hne]
    simp only [Bool.false_eq_true, if_false]
    exact ih (s + 1) (by omega)

/-- Filtering the points zipped with consecutive labels `s, s+1, …` down
to label `j` selects exactly the `j - s`-th point. -/
theorem filter_zip_range'_get {α : Type} (t : List α) (d : α) (s j : Nat)
    (hs : s ≤ j) (hj : j < s + t.length) :
    (t.zip (List.range' s t.length)).filter (fun p => p.2 == j) =
      [(t.getD (j - s) d, j)] := by
  induction t generalizing s with
  | nil => simp at hj; omega
  | cons a t ih =>
    rw [List.length_cons] at hj
    rw [List.length_cons, List.range'_succ, List.zip_cons_cons, List.filter_cons]
    by_cases hsj : s = j
    · subst hsj
      have heq : ((a, s).2 == s) = true := by simp
      rw [heq]
      simp only [if_true]
      rw [filter_zip_range'_small t (s + 1) s (by omega)]
      simp
    · have hne : ((a, s).2 == j) = false := by
        simp only [beq_eq_false_iff_ne]
        exact hsj
      rw [hne]
      simp only [Bool.false_eq_true, if_false]
      rw [ih (s + 1) (by omega) (by omega)]
      have : j - s = (j - (s + 1)) + 1 := by omega
      rw [this, List.getD_cons_succ]

theorem zip_getD_pair (xs ys : List ℚ) (j : Nat) (hx : j < xs.length)
    (hy : j < ys.length) :
    (xs.zip ys).getD j (0, 0) = (xs.getD j 0, ys.getD j 0) := by
  rw [List.getD_eq_getElem _ _ (by rw [List.length_zip]; omega),
    List.getElem_zip, List.getD_eq_getElem _ _ hx, List.getD_eq_getElem _ _ hy]

/-- With the tiled labels, the points of class `j` are exactly sample
`j`'s coordinate pair from each replicate, in replicate order. -/
theorem classPoints_tile (reps : List CoordMat) (ax0 ax1 n j : Nat)
    (hlen : ∀ m ∈ reps, (getCol m ax0).length = n ∧ (getCol m ax1).length = n)
    (hj : j < n) :
    classPoints (buildXarr reps ax0 ax1) (buildYarr n reps.length) j =
      reps.map (fun m => ((getCol m ax0).getD j 0, (getCol m ax1).getD j 0)) := by
  induction reps with
  | nil => rfl
  | cons m rest ih =>
    have hm := hlen m (List.mem_cons_self m rest)
    have hblock : ((getCol m ax0).zip (getCol m ax1)).length = n := by
      rw [List.length_zip, hm.1, hm.2]
      omega
    unfold classPoints buildXarr buildYarr
    rw [List.map_cons, List.flatten_cons, List.length_cons,
      List.replicate_succ, List.flatten_cons,
      List.zip_append (by rw [hblock, List.length_range]),
      List.filter_append, List.map_append]
    have hfirst :
        (((getCol m ax0).zip (getCol m ax1)).zip (List.range n)).filter
            (fun p => p.2 == j) =
          [(((getCol m ax0).zip (getCol m ax1)).getD j (0, 0), j)] := by
      rw [List.range_eq_range', show n = ((getCol m ax0).zip (getCol m ax1)).length
        from hblock.symm]
      exact filter_zip_range'_get _ (0, 0) 0 j (Nat.zero_le j) (by omega)
    rw [hfirst]
    have hrest : ∀ m' ∈ rest, (getCol m' ax0).length = n ∧
        (getCol m' ax1).length = n :=
      fun m' hm' => hlen m' (List.mem_cons_of_mem m hm')
    have hih := ih hrest
    unfold classPoints buildXarr buildYarr at hih
    have hhead := zip_getD_pair (getCol m ax0) (getCol m ax1) j
      (by rw [hm.1]; omega) (by rw [hm.2]; omega)
    rw [hhead, hih, List.map_cons, List.map_cons, List.map_nil]
    rfl

/-- C3: for `R ≥ 2` replicates, the centroid the nearest-centroid fit
computes for sample `j` on the two displayed axes is exactly the
per-sample mean `(mean(x_i), mean(y_i))` of the replicates'
coordinates for that sample. -/
theorem centroid_is_mean (reps : List CoordMat) (ax0 ax1 n j : Nat)
    (hlen : ∀ m ∈ reps, (getCol m ax0).length = n ∧ (getCol m ax1).length = n)
    (_hR : 2 ≤ reps.length) (hj : j < n) :
    centroidOf (buildXarr reps ax0 ax1) (buildYarr n reps.length) j =
      ((reps.map (fun m => (getCol m ax0).getD j 0)).sum / (reps.length : ℚ),
       (reps.map (fun m => (getCol m ax1).getD j 0)).sum / (reps.length : ℚ)) := by
  unfold centroidOf
  rw [classPoints_tile reps ax0 ax1 n j hlen hj]
  rw [List.map_map, List.map_map, List.length_map]
  rfl

/-- Witness for `centroid_is_mean`: two replicates, two samples, with the
centroid of sample 0 evaluating to the replicate mean `(3, 5)`. -/
theorem centroid_is_mean_witness :
    (2 ≤ ([[[1, 2], [3, 4]], [[5, 6], [7, 8]]] : List CoordMat).length ∧
      0 < 2) ∧
    centroidOf (buildXarr [[[1, 2], [3, 4]], [[5, 6], [7, 8]]] 0 1)
      (buildYarr 2 2) 0 = (3, 5) := by
  refine ⟨⟨by decide, by decide⟩, ?_⟩
  have h := centroid_is_mean [[[1, 2], [3, 4]], [[5, 6], [7, 8]]] 0 1 2 0
    (by intro m hm; fin_cases hm <;> exact ⟨rfl, rfl⟩)
    (by decide) (by decide)
  rw [show ([[[1, 2], [3, 4]], [[5, 6], [7, 8]]] : List CoordMat).length = 2
    from rfl] at h
  rw [h]
  simp only [getCol, List.getD_cons_zero, List.getD_cons_succ, List.map_cons,
    List.map_nil, List.sum_cons, List.sum_nil, List.length_cons, List.length_nil]
  norm_num [Prod.mk.injEq]

/-- C10: calling `draw` with two or more stored replicates permanently
mutates the stored results: afterwards `self.pcaxes` holds the reconciled
replicate set (mutated in place through the alias `datas = self.pcaxes`);
the stored axis column of a non-reference replicate whose flipped
orientation wins the slope comparison is the negation of the column `run`
stored; and on a concrete two-replicate input the stored coordinates
after `draw` differ from the ones `run` produced. -/
theorem draw_mutates_stored (datas : List CoordMat) (variances : List (List ℚ))
    (ax0 ax1 n i : Nat) (hok : max ax0 ax1 < ncomponents datas)
    (hax : ax0 ≠ ax1) (h1 : 1 ≤ i) (hi : i < datas.length) :
    ((drawModel datas variances ax0 ax1 n).2 = reconcile ax0 ax1 datas) ∧
    ((drawModel datas variances ax0 ax1 n).2.getD i [] =
      flipAxes (datas.getD 0 []) ax0 ax1 (datas.getD i [])) ∧
    (slope (getCol (datas.getD 0 []) ax0) (negCol (getCol (datas.getD i []) ax0)) >
        slope (getCol (datas.getD 0 []) ax0) (getCol (datas.getD i []) ax0) →
      getCol ((drawModel datas variances ax0 ax1 n).2.getD i []) ax0 =
        negCol (getCol (datas.getD i []) ax0)) ∧
    (drawModel [[[0, 1], [0, 1]], [[0, -1], [0, -1]]] [[1], [1]] 0 1 2).2 ≠
      [[[0, 1], [0, 1]], [[0, -1], [0, -1]]] := by
  have ha : (drawModel datas variances ax0 ax1 n).2 = reconcile ax0 ax1 datas := by
    simp only [drawModel]
    rw [if_pos hok]
  obtain ⟨k, rfl⟩ : ∃ k, i = k + 1 := ⟨i - 1, by omega⟩
  cases datas with
  | nil => simp at hi
  | cons d0 rest =>
    have hklt : k < rest.length := by
      simp only [List.length_cons] at hi
      omega
    have hb : (reconcile ax0 ax1 (d0 :: rest)).getD (k + 1) [] =
        flipAxes d0 ax0 ax1 (rest.getD k []) := by
      simp only [reconcile, List.getD_cons_succ]
      exact getD_map_of_lt _ rest k [] [] hklt
    have hget0 : (d0 :: rest).getD 0 [] = d0 := rfl
    have hgeti : (d0 :: rest).getD (k + 1) [] = rest.getD k [] := rfl
    refine ⟨ha, ?_, ?_, ?_⟩
    · rw [ha, hb, hget0, hgeti]
    · intro hwin
      rw [hget0, hgeti] at hwin
      have hcol : getCol (flipAxes d0 ax0 ax1 (rest.getD k [])) ax0 =
          alignAxis (getCol d0 ax0) (getCol (rest.getD k []) ax0) := by
        unfold flipAxes
        rw [getCol_setCol_ne _ ax1 ax0 _ (Ne.symm hax)]
        exact getCol_setCol_align _ _ _
      rw [ha, hb, hgeti, hcol]
      simp only [alignAxis]
      rw [if_pos hwin]
    · have hs1 : slope [0, 1] [0, -1] = -1 := by norm_num [slope, dotL]
      have hs2 : slope [0, 1] (negCol [0, -1]) = 1 := by
        norm_num [slope, dotL, negCol]
      have halign : alignAxis [0, 1] [0, -1] = [0, 1] := by
        unfold alignAxis
        rw [if_pos (by rw [hs1, hs2]; norm_num)]
        norm_num [negCol]
      have hflip : flipAxes [[0, 1], [0, 1]] 0 1 [[0, -1], [0, -1]] =
          [[0, 1], [0, 1]] := by
        show setCol (setCol [[0, -1], [0, -1]] 0
            (alignAxis (getCol [[0, 1], [0, 1]] 0) (getCol [[0, -1], [0, -1]] 0))) 1
            (alignAxis (getCol [[0, 1], [0, 1]] 1)
              (getCol (setCol [[0, -1], [0, -1]] 0
                (alignAxis (getCol [[0, 1], [0, 1]] 0)
                  (getCol [[0, -1], [0, -1]] 0))) 1)) = [[0, 1], [0, 1]]
        rw [show getCol ([[0, 1], [0, 1]] : CoordMat) 0 = [0, 1] from rfl,
          show getCol ([[0, -1], [0, -1]] : CoordMat) 0 = [0, -1] from rfl, halign,
          show setCol ([[0, -1], [0, -1]] : CoordMat) 0 [0, 1] = [[0, 1], [0, -1]]
            from rfl,
          show getCol ([[0, 1], [0, 1]] : CoordMat) 1 = [0, 1] from rfl,
          show getCol ([[0, 1], [0, -1]] : CoordMat) 1 = [0, -1] from rfl, halign]
        rfl
      have hc : (drawModel [[[0, 1], [0, 1]], [[0, -1], [0, -1]]]
          [[1], [1]] 0 1 2).2 =
          [[[0, 1], [0, 1]], [[0, 1], [0, 1]]] := by
        simp only [drawModel]
        rw [if_pos (by decide)]
        simp only [reconcile, List.map_cons, List.map_nil]
        rw [hflip]
      rw [hc]
      norm_num

/-- Witness for `draw_mutates_stored` at the concrete two-replicate
input used in its last conjunct. -/
theorem draw_mutates_stored_witness :
    (max 0 1 < ncomponents [[[0, 1], [0, 1]], [[0, -1], [0, -1]]] ∧
      (0 : Nat) ≠ 1 ∧ 1 ≤ 1 ∧
      1 < ([[[0, 1], [0, 1]], [[0, -1], [0, -1]]] : List CoordMat).length) ∧
    (drawModel [[[0, 1], [0, 1]], [[0, -1], [0, -1]]] [[1], [1]] 0 1 2).2 ≠
      [[[0, 1], [0, 1]], [[0, -1], [0, -1]]] := by
  refine ⟨⟨by decide, by decide, by decide, by decide⟩, ?_⟩
  exact (draw_mutates_stored [[[0, 1], [0, 1]], [[0, -1], [0, -1]]]
    [[1], [1]] 0 1 2 1 (by decide) (by decide) (by decide) (by decide)).2.2.2

/-! ## `run` and its seed plumbing (source lines 168-169, 259-281, 297-347)

`self._seed()` is `np.random.randint(0, 1e9)`: a draw from numpy's GLOBAL
(ambient) generator, modelled as a stream of naturals consumed head-first.
`run` replaces a falsy `seed` argument (Python treats both `None` and `0`
as falsy in `seed if seed else self._seed()`) by such a global draw, then
builds one `np.random.RandomState(seed)` whose successive
`randint(0, 1e15)` draws are a deterministic function `mtDraw seed idx` of
the generator seed and the draw index (the Mersenne-Twister stream,
passed as a parameter; the spec's primitives are deterministic given a
seed). -/

/-- The ambient numpy global generator: the stream of its future draws. -/
abbrev GlobalRng := List Nat

/-- `self._seed()` (source lines 168-169): one draw from the global
generator. -/
def globalSeedDraw (g : GlobalRng) : Nat × GlobalRng := (g.headD 0, g.tail)

/-- `seed = (seed if seed else self._seed())` (source line 327). -/
def effectiveSeed (seed? : Option Nat) (g : GlobalRng) : Nat × GlobalRng :=
  match seed? with
  | some s => if s = 0 then globalSeedDraw g else (s, g)
  | none => globalSeedDraw g

/-- The seed the run's `np.random.RandomState` is constructed with
(source line 328). -/
def runGenSeed (seed? : Option Nat) (g : GlobalRng) : Nat :=
  (effectiveSeed seed? g).1

/-- The replicate seeds drawn in a fixed order from the run's
`RandomState` (`rng.randint(0, 1e15)` at source lines 335 and 342). -/
def replicateSeeds (mtDraw : Nat → Nat → Nat) (seed? : Option Nat)
    (g : GlobalRng) (nreps : Nat) : List Nat :=
  (List.range nreps).map (mtDraw (runGenSeed seed? g))

/-- `nreplicates = (nreplicates if nreplicates else 1)` (source line 321). -/
def effectiveReps (nreps? : Option Nat) : Nat :=
  match nreps? with
  | some r => if r = 0 then 1 else r
  | none => 1

/-- `data[:, cols]`: retain the listed marker columns. -/
def selectColumns (snps : List (List Nat)) (cols : List Nat) :
    List (List Nat) :=
  snps.map (fun row => cols.map (fun c => row.getD c 0))

/-- `_run` (source lines 259-281): optionally subsample one SNP per locus
using the given seed, then decompose.  `jsub` models the repository's
`jsubsample_snps` (modelled from the spec, 4.1: a deterministic function
of the locus map and the seed); `pca` models the sklearn decomposition
(fit + transform + explained-variance ratios), deterministic in its
input. -/
def runOne (jsub : List Nat → Nat → List Nat)
    (pca : List (List Nat) → CoordMat × List ℚ)
    (snps : List (List Nat)) (snpsmap : List Nat) (subsample : Bool)
    (seed : Nat) : CoordMat × List ℚ :=
  if subsample then pca (selectColumns snps (jsub snpsmap seed)) else pca snps

/-- `run` (source lines 297-347): stores per-replicate coordinates in
`self.pcaxes` and variances in `self.variances` (index `i` = `i`-th list
entry), replicate `i` using the `i`-th draw of the run's generator. -/
def runModel (mtDraw : Nat → Nat → Nat) (jsub : List Nat → Nat → List Nat)
    (pca : List (List Nat) → CoordMat × List ℚ)
    (snps : List (List Nat)) (snpsmap : List Nat) (subsample : Bool)
    (nreps? seed? : Option Nat) (g : GlobalRng) :
    List CoordMat × List (List ℚ) :=
  ((replicateSeeds mtDraw seed? g (effectiveReps nreps?)).map
      (fun s => (runOne jsub pca snps snpsmap subsample s).1),
   (replicateSeeds mtDraw seed? g (effectiveReps nreps?)).map
      (fun s => (runOne jsub pca snps snpsmap subsample s).2))

/-- The full run of the claim: constructor-time imputation (here with a
deterministic policy) followed by `run`. -/
def pipelineModel (mtDraw : Nat → Nat → Nat)
    (jsub : List Nat → Nat → List Nat)
    (pca : List (List Nat) → CoordMat × List ℚ) (pym : PyImpute)
    (si ki snps0 : List (List Nat)) (snpsmap : List Nat) (subsample : Bool)
    (nreps? seed? : Option Nat) (g : GlobalRng) :
    List CoordMat × List (List ℚ) :=
  runModel mtDraw jsub pca (initSnps pym si ki snps0) snpsmap subsample
    nreps? seed? g

/-- C2, counterexample.  `0` is a legitimate fixed top-level seed, but
`run` treats it as unset (Python falsiness), so the generator is seeded
from the ambient global generator instead of from the top-level seed:
the `RandomState` seed of the run is `5` under one ambient state and `7`
under another, for the same top-level seed `0`. -/
theorem run_seed_zero_not_reproducible :
    runGenSeed (some 0) [5] = 5 ∧ runGenSeed (some 0) [7] = 7 ∧
    runGenSeed (some 0) [5] ≠ runGenSeed (some 0) [7] := by
  decide

/-- C2, amended: for any fixed NONZERO top-level seed and a deterministic
imputation policy (the default null policy, or opt-out), two repeated
full runs — imputation followed by replicate decomposition — produce
identical coordinate and variance outputs whatever the ambient global
generator state, and the replicate-level seeds are drawn in a fixed
order `mtDraw s 0, mtDraw s 1, …` from the one generator seeded by the
top-level seed `s`.  (Top-level seed `0` is instead replaced by an
ambient draw, and kmeans-imputation randomness is drawn from the ambient
generator at construction time, outside the top-level seed's control.) -/
theorem run_deterministic (mtDraw : Nat → Nat → Nat)
    (jsub : List Nat → Nat → List Nat)
    (pca : List (List Nat) → CoordMat × List ℚ) (pym : PyImpute)
    (si1 ki1 si2 ki2 snps0 : List (List Nat)) (snpsmap : List Nat)
    (subsample : Bool) (nreps? : Option Nat) (s : Nat) (g1 g2 : GlobalRng)
    (hs : s ≠ 0) (hpym : pym = .pyNone ∨ pym = .pyFalse) :
    pipelineModel mtDraw jsub pca pym si1 ki1 snps0 snpsmap subsample
        nreps? (some s) g1 =
      pipelineModel mtDraw jsub pca pym si2 ki2 snps0 snpsmap subsample
        nreps? (some s) g2 ∧
    replicateSeeds mtDraw (some s) g1 (effectiveReps nreps?) =
      (List.range (effectiveReps nreps?)).map (mtDraw s) := by
  have hseed : ∀ g : GlobalRng, runGenSeed (some s) g = s := by
    intro g
    simp [runGenSeed, effectiveSeed, hs]
  have hreps : ∀ g : GlobalRng,
      replicateSeeds mtDraw (some s) g (effectiveReps nreps?) =
        (List.range (effectiveReps nreps?)).map (mtDraw s) := by
    intro g
    unfold replicateSeeds
    rw [hseed g]
  have hsnps : initSnps pym si1 ki1 snps0 = initSnps pym si2 ki2 snps0 := by
    rcases hpym with h | h <;> subst h <;>
      by_cases hc : countSentinels snps0 = 0
    · rw [initSnps, initSnps, if_neg (fun hp => hp.2 hc),
        if_neg (fun hp => hp.2 hc)]
    · rw [initSnps, initSnps, if_pos ⟨by decide, hc⟩, if_pos ⟨by decide, hc⟩]
      rfl
    · rfl
    · rw [initSnps, initSnps, if_neg (fun hp => hp.1 rfl),
        if_neg (fun hp => hp.1 rfl)]
  refine ⟨?_, hreps g1⟩
  unfold pipelineModel runModel
  rw [hsnps, hreps g1, hreps g2]

/-- Witness for `run_deterministic` at a concrete instantiation of every
parameter, with top-level seed 3 and ambient states `[5]` vs `[7]`. -/
theorem run_deterministic_witness :
    ((3 : Nat) ≠ 0 ∧
      (PyImpute.pyNone = PyImpute.pyNone ∨ PyImpute.pyNone = PyImpute.pyFalse)) ∧
    pipelineModel (fun s i => s + i) (fun _ _ => [0])
        (fun m => ([[(m.length : ℚ)]], [1])) .pyNone [] [] [[9, 1]] [0, 0]
        true (some 2) (some 3) [5] =
      pipelineModel (fun s i => s + i) (fun _ _ => [0])
        (fun m => ([[(m.length : ℚ)]], [1])) .pyNone [[2]] [[2]] [[9, 1]]
        [0, 0] true (some 2) (some 3) [7] := by
  refine ⟨⟨by decide, Or.inl rfl⟩, ?_⟩
  exact (run_deterministic (fun s i => s + i) (fun _ _ => [0])
    (fun m => ([[(m.length : ℚ)]], [1])) .pyNone [] [] [[2]] [[2]] [[9, 1]]
    [0, 0] true (some 2) 3 [5] [7] (by decide) (Or.inl rfl)).1

/-! ## `_impute_kmeans` (source lines 202-256)

The refinement loop iterates over `enumerate(np.linspace(topcov,
self.mincov, niters))`.  Each pass re-extracts the matrix under the
current population map and the pass's coverage threshold, imputes it
with the baseline imputer, and — only when the 0-indexed iteration
counter equals the HARDCODED constant `4` (`if it == 4`, source line
239) — returns the imputed matrix.  Otherwise it subsamples unlinked
SNPs with a seed drawn from the ambient global generator (`self._seed()`,
line 243), decomposes, k-means-clusters, replaces the population map
with the discovered clusters, and continues.  A loop that ends without
hitting `it == 4` falls off the function and returns Python `None`.

The collaborators (`SNPsExtracter`, `SNPsImputer`, `jsubsample_snps`,
sklearn PCA / KMeans) live outside this file and are passed as
deterministic function parameters per the spec's interface section. -/

/-- `np.linspace(a, b, n)` over ℚ: `n` evenly spaced values from `a`
to `b` inclusive (`[a]` when `n = 1`, empty when `n = 0`). -/
def linspace (a b : ℚ) (n : Nat) : List ℚ :=
  if n = 0 then []
  else if n = 1 then [a]
  else (List.range n).map (fun i => a + ((b - a) * i) / ((n : ℚ) - 1))

/-- The extractor collaborator's output (spec 6): filtered matrix, the
updated locus map, and the retained sample names. -/
structure ExtractOut where
  snps : List (List Nat)
  snpsmap : List Nat
  names : List String

/-- A population map: ordered label → member sample names. -/
abbrev Imap := List (String × List String)

/-- `{i: [se.names[j] for j in np.where(labels == i)[0]] for i in
np.unique(labels)}` (source lines 250-254): group the sample names by
their k-means cluster label, labels in sorted order of first appearance
values as `np.unique` sorts. -/
def labelsToImap (labels : List Nat) (names : List String) : Imap :=
  ((labels.dedup).mergeSort (· ≤ ·)).map
    (fun i => (toString i,
      (names.zip labels).filterMap
        (fun p => if p.2 = i then some p.1 else none)))

/-- The loop body of `_impute_kmeans` over the enumerated threshold list
(first pair component = `it`, the 0-indexed iteration counter; second =
`kmeans_mincov`).  Returns `none` when the loop falls off the end. -/
def kmeansIter (extracter : Imap → List (String × ℚ) → ℚ → ExtractOut)
    (imputer : List (List Nat) → List String → Imap → List (List Nat))
    (jsub : List Nat → Nat → List Nat)
    (pcaFT : List (List Nat) → List (List ℚ))
    (kmeansFit : List (List ℚ) → Nat → List Nat) (k : Nat) (mincov : ℚ) :
    List (Nat × ℚ) → Imap → GlobalRng → Option (List (List Nat))
  | [], _, _ => none
  | (it, cov) :: rest, imap, g =>
      let minmap := imap.map (fun p => (p.1, mincov))
      let eo := extracter imap minmap cov
      let impdata := imputer eo.snps eo.names imap
      if it = 4 then some impdata
      else
        let (seed, g') := globalSeedDraw g
        let labels := kmeansFit (pcaFT (selectColumns impdata (jsub eo.snpsmap seed))) k
        kmeansIter extracter imputer jsub pcaFT kmeansFit k mincov
          rest (labelsToImap labels eo.names) g'

/-- `_impute_kmeans(topcov, niters)` with `k = self.impute_method`
clusters and `mincov = self.mincov`: iterate over
`enumerate(np.linspace(topcov, mincov, niters))` starting from the
global population map `{'global': self.names}`. -/
def imputeKmeans (extracter : Imap → List (String × ℚ) → ℚ → ExtractOut)
    (imputer : List (List Nat) → List String → Imap → List (List Nat))
    (jsub : List Nat → Nat → List Nat)
    (pcaFT : List (List Nat) → List (List ℚ))
    (kmeansFit : List (List ℚ) → Nat → List Nat) (k : Nat)
    (topcov mincov : ℚ) (niters : Nat) (names0 : List String)
    (g : GlobalRng) : Option (List (List Nat)) :=
  kmeansIter extracter imputer jsub pcaFT kmeansFit k mincov
    ((linspace topcov mincov niters).enum) [("global", names0)] g

/-! Concrete collaborators used to evaluate the loop skeleton. -/

/-- A constant extractor standing in for `SNPsExtracter` on a fixed
two-sample data set. -/
def cExtract : Imap → List (String × ℚ) → ℚ → ExtractOut :=
  fun _ _ _ => ⟨[[9, 1], [1, 1]], [0, 0], ["a", "b"]⟩

/-- A deterministic stand-in imputer (fills sentinels with 0). -/
def cImpute : List (List Nat) → List String → Imap → List (List Nat) :=
  fun snps _ _ => imputeNull snps

/-- Stand-in unlinked-SNP sampler. -/
def cJsub : List Nat → Nat → List Nat := fun _ _ => [0]

/-- Stand-in PCA transform. -/
def cPca : List (List Nat) → List (List ℚ) :=
  fun m => m.map (fun r => r.map (fun v => (v : ℚ)))

/-- Stand-in k-means labelling. -/
def cKmeans : List (List ℚ) → Nat → List Nat := fun _ _ => [0, 1]

/-- C1: `_impute_kmeans` returns only on the iteration whose 0-indexed
counter equals the hardcoded `4`.  With `niters = 1` the single
filtering/imputation pass runs (the threshold list is `[topcov]`) but
the function falls off the loop and returns `None` instead of that
pass's imputed matrix; with the default `niters = 5` it returns the
5th pass's imputed matrix as claimed, and the five thresholds are
evenly spaced from `topcov = 0.9` down to `mincov = 0.1`. -/
theorem imputeKmeans_hardcoded_cut :
    imputeKmeans cExtract cImpute cJsub cPca cKmeans 2 (9/10) (1/10) 1
        ["a", "b"] [3, 3, 3, 3, 3] = none ∧
    linspace (9/10) (1/10) 1 = [9/10] ∧
    imputeKmeans cExtract cImpute cJsub cPca cKmeans 2 (9/10) (1/10) 5
        ["a", "b"] [3, 3, 3, 3, 3] = some [[0, 1], [1, 1]] ∧
    linspace (9/10) (1/10) 5 = [9/10, 7/10, 5/10, 3/10, 1/10] := by
  refine ⟨rfl, rfl, rfl, ?_⟩
  unfold linspace
  norm_num [List.range_succ]

end IpyradPCA
